import Mathlib

/-!
Verification of the hotel data-quality filtering pipeline.

This file gives a shallow embedding of the two-stage filtering pipeline:
the deterministic rule validator (src/data_quality/rules.py), and the
batched AI quality evaluator with response parsing, batch evaluation,
concurrent result collection and result merging
(src/data_quality/filter.py).

Modelling conventions:
- Python strings are modelled as List Char; lengths are code-point counts,
  matching Python's len on str.
- A record (one JSON line) is modelled by its minimum required shape:
  a contents list of turns, each turn holding a parts list, each part a
  text. Structural-access failures (missing turns or empty parts lists)
  are the cases the source catches with try/except; they are modelled by
  Option-valued extraction.
- json.loads is modelled by an executable recursive-descent JSON decoder
  over the same grammar, with numbers restricted to integers (the scoring
  domain used by the program); a JSON boolean used as a score coerces to
  0/1 exactly as Python bool does in integer comparisons.
- The external judgment service (VertexAIManager.generate_content) is an
  injected collaborator: a function String to Except String String, where
  the error case models a raised exception.
- The thread pool of apply_ai_evaluation only affects the order in which
  completed batch results are merged into the shared dict; the pure model
  exposes that order as an explicit list order, and the worker count does
  not appear because it influences nothing but that order.
-/

/-- One element of a turn's parts list: a dict holding a text field. -/
structure QAPart where
  text : List Char
deriving Repr, DecidableEq

/-- One turn of a record: a dict holding a parts list. -/
structure Turn where
  parts : List QAPart
deriving Repr, DecidableEq

/-- One input record: a dict holding a contents list of turns. -/
structure Entry where
  contents : List Turn
deriving Repr, DecidableEq

/-- FilterStats from rules.py: per-record measurements. -/
structure FilterStats where
  question_length : Nat
  answer_length : Nat
  has_question_mark : Bool
  is_hotel_related : Bool
  hotel_keywords_found : List (List Char)
deriving Repr, DecidableEq

/-- FilterResult from rules.py: the verdict for one record at one stage. -/
structure FilterResult where
  index : Nat
  is_kept : Bool
  score : Int
  reason : String
  stage : String
  stats : FilterStats
deriving Repr, DecidableEq

/-- ProcessingConfig from rules.py. -/
structure ProcessingConfig where
  min_score : Int := 7
  batch_size : Nat := 12
  max_workers : Nat := 6
  sample_size : Option Nat := none
deriving Repr, DecidableEq

/-- Python list.startswith on character lists: pat is an initial segment. -/
def startsWithL : List Char → List Char → Bool
  | [], _ => true
  | _ :: _, [] => false
  | p :: ps, c :: cs => p = c && startsWithL ps cs

/-- Python substring containment (kw in text) on character lists. -/
def containsSub (pat : List Char) : List Char → Bool
  | [] => startsWithL pat []
  | c :: rest => startsWithL pat (c :: rest) || containsSub pat rest

/-- Python str.strip(): drop whitespace from both ends. -/
def pyStrip (l : List Char) : List Char :=
  ((l.dropWhile Char.isWhitespace).reverse.dropWhile Char.isWhitespace).reverse

/-- HOTEL_KEYWORDS from rules.py, in source order.  The source list
contains the term for towel twice (rows four and five). -/
def HOTEL_KEYWORDS : List (List Char) :=
  List.map String.toList
    ["酒店", "宾馆", "客房", "房间", "前台", "服务", "入住", "退房",
     "预订", "预定", "餐厅", "客人", "顾客", "住客", "管家", "清洁",
     "维修", "设施", "早餐", "会议", "活动", "投诉", "建议", "接待",
     "登记", "结账", "房卡", "钥匙", "毛巾", "床单", "空调", "电视",
     "浴室", "洗漱", "毛巾", "拖鞋", "礼宾", "行李", "叫醒", "续住"]

def MIN_QUESTION_LENGTH : Nat := 8
def MAX_QUESTION_LENGTH : Nat := 120
def MIN_ANSWER_LENGTH : Nat := 30
def MAX_ANSWER_LENGTH : Nat := 1200
def MIN_ANSWER_CONTENT_LENGTH : Nat := 20

/-- Zero-valued stats used on the structural-failure paths. -/
def emptyStats : FilterStats := ⟨0, 0, false, false, []⟩

/-- Extraction of contents[0].parts[0].text and contents[1].parts[0].text;
none models the structural access raising (caught by the callers). -/
def extractQA (e : Entry) : Option (List Char × List Char) :=
  match e.contents with
  | c0 :: c1 :: _ =>
    match c0.parts, c1.parts with
    | p0 :: _, p1 :: _ => some (p0.text, p1.text)
    | _, _ => none
  | _ => none

/-- DataQualityRules.validate_entry from rules.py: returns
(is_valid, reason, stats). -/
def validate_entry (e : Entry) : Bool × String × FilterStats :=
  if e.contents.length < 2 then
    (false, "数据格式错误：缺少问答内容", emptyStats)
  else
    match extractQA e with
    | none => (false, "处理错误: 结构访问异常", emptyStats)
    | some (question, answer) =>
      let has_question_mark : Bool :=
        question.contains '？' || question.contains '?'
      let lenIssues : List String :=
        (if ¬ (MIN_QUESTION_LENGTH ≤ question.length ∧
               question.length ≤ MAX_QUESTION_LENGTH) then
          ["问题长度异常(" ++ toString question.length ++ "字符)"] else [])
        ++ (if ¬ (MIN_ANSWER_LENGTH ≤ answer.length ∧
                  answer.length ≤ MAX_ANSWER_LENGTH) then
          ["回答长度异常(" ++ toString answer.length ++ "字符)"] else [])
        ++ (if has_question_mark then [] else ["问题缺少疑问标记"])
        ++ (if (pyStrip answer).length < MIN_ANSWER_CONTENT_LENGTH then
          ["回答内容过短"] else [])
      let found_keywords :=
        HOTEL_KEYWORDS.filter (fun kw => containsSub kw (question ++ answer))
      let is_hotel_related : Bool := !found_keywords.isEmpty
      let issues :=
        lenIssues ++ (if is_hotel_related then [] else ["与酒店服务不相关"])
      let is_valid := decide (issues.length ≤ 1) && is_hotel_related
      let reason :=
        if issues.isEmpty then "通过规则检查" else String.intercalate "; " issues
      (is_valid, reason,
        ⟨question.length, answer.length, has_question_mark,
         is_hotel_related, found_keywords⟩)

/-- Spec-side predicate: at least one domain keyword occurs in the text. -/
def domainRelevant (t : List Char) : Prop :=
  ∃ kw ∈ HOTEL_KEYWORDS, containsSub kw t = true

instance (t : List Char) : Decidable (domainRelevant t) := by
  unfold domainRelevant; infer_instance

/-- Spec-side count of the four non-domain checks that failed. -/
def failedOtherChecks (question answer : List Char) : Nat :=
  (if MIN_QUESTION_LENGTH ≤ question.length ∧
      question.length ≤ MAX_QUESTION_LENGTH then 0 else 1)
  + (if MIN_ANSWER_LENGTH ≤ answer.length ∧
        answer.length ≤ MAX_ANSWER_LENGTH then 0 else 1)
  + (if question.contains '？' || question.contains '?' then 0 else 1)
  + (if (pyStrip answer).length < MIN_ANSWER_CONTENT_LENGTH then 1 else 0)

example :
    (validate_entry
      ⟨[⟨[⟨"酒店的早餐时间是什么时候？".toList⟩]⟩,
        ⟨[⟨"我们酒店的早餐供应时间是每天早上6:30到10:00，周末延长到10:30。早餐在一楼餐厅提供，包含中西式各种选择。".toList⟩]⟩]⟩).1
    = true := by decide

example :
    (validate_entry
      ⟨[⟨[⟨"今天天气怎么样？".toList⟩]⟩,
        ⟨[⟨"今天天气晴朗，温度适宜，是个出门的好日子。".toList⟩]⟩]⟩).1
    = false := by decide

/-- Demo record from the test suite: well-formed, hotel-related. -/
def qA : List Char := "酒店的早餐时间是什么时候？".toList

def aA : List Char :=
  "我们酒店的早餐供应时间是每天早上6:30到10:00，周末延长到10:30。早餐在一楼餐厅提供，包含中西式各种选择。".toList

def eA : Entry := ⟨[⟨[⟨qA⟩]⟩, ⟨[⟨aA⟩]⟩]⟩

set_option maxHeartbeats 1000000 in
/-- C1: for a record whose question and answer are extractable, the rule
validator accepts it if and only if it is domain-relevant (some domain
keyword occurs in question ++ answer) and at most one of the other four
checks (question length, answer length, question marker, trimmed answer
length) failed; a non-relevant record is always rejected, and a relevant
record with exactly one other failing check is accepted. -/
theorem validate_entry_accepts_iff (e : Entry) (q a : List Char)
    (he : extractQA e = some (q, a)) (hc : 2 ≤ e.contents.length) :
    ((validate_entry e).1 = true ↔
      domainRelevant (q ++ a) ∧ failedOtherChecks q a ≤ 1)
    ∧ (¬ domainRelevant (q ++ a) → (validate_entry e).1 = false)
    ∧ (domainRelevant (q ++ a) → failedOtherChecks q a = 1 →
        (validate_entry e).1 = true) := by
  have hlt : ¬ (e.contents.length < 2) := Nat.not_lt.mpr hc
  have hrelIff :
      ((!(HOTEL_KEYWORDS.filter fun kw =>
          containsSub kw (q ++ a)).isEmpty) = true) ↔ domainRelevant (q ++ a) := by
    simp [List.isEmpty_iff, List.filter_eq_nil_iff, domainRelevant]
  rw [← hrelIff]
  clear hrelIff hc
  simp only [validate_entry, he, if_neg hlt]
  by_cases h1 : MIN_QUESTION_LENGTH ≤ q.length ∧ q.length ≤ MAX_QUESTION_LENGTH <;>
  by_cases h2 : MIN_ANSWER_LENGTH ≤ a.length ∧ a.length ≤ MAX_ANSWER_LENGTH <;>
  by_cases h3 : '？' ∈ q ∨ '?' ∈ q <;>
  by_cases h4 : (pyStrip a).length < MIN_ANSWER_CONTENT_LENGTH <;>
  by_cases h5 : (!(HOTEL_KEYWORDS.filter fun kw =>
      containsSub kw (q ++ a)).isEmpty) = true <;>
  simp [failedOtherChecks, h1, h2, h3, h4, h5, Nat.not_lt]

/-- Witness for C1 at the well-formed hotel record eA. -/
theorem validate_entry_accepts_iff_witness :
    extractQA eA = some (qA, aA) ∧ 2 ≤ eA.contents.length ∧
      (validate_entry eA).1 = true :=
  ⟨rfl, by decide,
    (validate_entry_accepts_iff eA qA aA rfl (by decide)).1.mpr
      ⟨by decide, by decide⟩⟩

/-- Record whose text contains the duplicated vocabulary term. -/
def eC9 : Entry := ⟨[⟨[⟨"毛巾好用吗？".toList⟩]⟩, ⟨[⟨"是的".toList⟩]⟩]⟩

/-- C9 counterexample: the matched-keyword collection is not
duplicate-free — the vocabulary lists the towel term twice, so a record
matching it records it twice. -/
theorem hotel_keywords_found_duplicate :
    (validate_entry eC9).2.2.hotel_keywords_found
        = ["毛巾".toList, "毛巾".toList]
    ∧ ¬ (validate_entry eC9).2.2.hotel_keywords_found.Nodup := by
  decide

/-- C9 (amended): the matched-keyword collection is the sublist of the
vocabulary consisting of the terms occurring in question ++ answer, each
appearing as many times as the vocabulary lists it: exactly once for
every term except the towel term, which the vocabulary lists twice. -/
theorem hotel_keywords_found_counts (e : Entry) (q a : List Char)
    (he : extractQA e = some (q, a)) (hc : 2 ≤ e.contents.length) :
    ((validate_entry e).2.2.hotel_keywords_found
        = HOTEL_KEYWORDS.filter fun kw => containsSub kw (q ++ a))
    ∧ (∀ kw, ((validate_entry e).2.2.hotel_keywords_found).count kw
        = if containsSub kw (q ++ a) then HOTEL_KEYWORDS.count kw else 0)
    ∧ HOTEL_KEYWORDS.count ("毛巾".toList) = 2
    ∧ (HOTEL_KEYWORDS.all fun kw =>
        kw == "毛巾".toList || HOTEL_KEYWORDS.count kw == 1) = true := by
  have hlt : ¬ (e.contents.length < 2) := Nat.not_lt.mpr hc
  have h1 : (validate_entry e).2.2.hotel_keywords_found
      = HOTEL_KEYWORDS.filter (fun kw => containsSub kw (q ++ a)) := by
    simp only [validate_entry, he, if_neg hlt]
  refine ⟨h1, ?_, by decide, by decide⟩
  intro kw
  rw [h1]
  by_cases hkw : containsSub kw (q ++ a) = true
  · rw [if_pos hkw]
    exact @List.count_filter (List Char) _ _
      (fun kw => containsSub kw (q ++ a)) kw HOTEL_KEYWORDS hkw
  · rw [if_neg hkw]
    refine List.count_eq_zero.mpr fun hmem => ?_
    exact hkw (List.mem_filter.mp hmem).2

/-- Witness for the amended C9 at the towel record eC9. -/
theorem hotel_keywords_found_counts_witness :
    extractQA eC9 = some ("毛巾好用吗？".toList, "是的".toList)
    ∧ (validate_entry eC9).2.2.hotel_keywords_found.count ("毛巾".toList)
        = 2 := by
  refine ⟨rfl, ?_⟩
  have h := (hotel_keywords_found_counts eC9 ("毛巾好用吗？".toList)
    ("是的".toList) rfl (by decide)).2.1 ("毛巾".toList)
  rw [h]
  decide

/-- JSON values as produced by json.loads, with numbers restricted to
integers (the scoring domain; non-integer numerals fail to decode in
this model). -/
inductive Json where
  | jnull : Json
  | jbool : Bool → Json
  | jnum : Int → Json
  | jstr : List Char → Json
  | jarr : List Json → Json
  | jobj : List (List Char × Json) → Json
deriving Repr

def isJsonWs (c : Char) : Bool :=
  c = ' ' || c = '\n' || c = '\t' || c = '\r'

def skipWs (s : List Char) : List Char := s.dropWhile isJsonWs

def digitsVal (ds : List Char) : Nat :=
  ds.foldl (fun acc c => acc * 10 + (c.toNat - '0'.toNat)) 0

/-- An unsigned JSON integer numeral; rejects leading zeros and anything
followed by a fractional or exponent marker. -/
def parseUNum (s : List Char) : Option (Nat × List Char) :=
  let ds := s.takeWhile Char.isDigit
  let rest := s.dropWhile Char.isDigit
  if ds.isEmpty then none
  else if 1 < ds.length ∧ ds.headD '0' = '0' then none
  else
    match rest with
    | c :: _ =>
      if c = '.' || c = 'e' || c = 'E' then none else some (digitsVal ds, rest)
    | [] => some (digitsVal ds, rest)

def parseNumber (s : List Char) : Option (Int × List Char) :=
  match s with
  | '-' :: rest => (parseUNum rest).map fun p => (-(p.1 : Int), p.2)
  | _ => (parseUNum s).map fun p => ((p.1 : Int), p.2)

/-- The body of a JSON string after the opening quote; returns the
content and the remainder after the closing quote.  The unicode escape
is not modelled: a string containing it fails to decode. -/
def parseStringRest : List Char → Option (List Char × List Char)
  | [] => none
  | '"' :: r => some ([], r)
  | '\\' :: e :: r =>
    let esc : Option Char :=
      match e with
      | '"' => some '"'
      | '\\' => some '\\'
      | '/' => some '/'
      | 'n' => some '\n'
      | 't' => some '\t'
      | 'r' => some '\r'
      | 'b' => some (Char.ofNat 8)
      | 'f' => some (Char.ofNat 12)
      | _ => none
    match esc with
    | some c => (parseStringRest r).map fun p => (c :: p.1, p.2)
    | none => none
  | c :: r => (parseStringRest r).map fun p => (c :: p.1, p.2)

mutual

/-- Recursive-descent JSON value; fuel bounds the recursion depth. -/
def parseValue : Nat → List Char → Option (Json × List Char)
  | 0, _ => none
  | fuel + 1, s =>
    match skipWs s with
    | 'n' :: 'u' :: 'l' :: 'l' :: r => some (Json.jnull, r)
    | 't' :: 'r' :: 'u' :: 'e' :: r => some (Json.jbool true, r)
    | 'f' :: 'a' :: 'l' :: 's' :: 'e' :: r => some (Json.jbool false, r)
    | '"' :: r => (parseStringRest r).map fun p => (Json.jstr p.1, p.2)
    | '[' :: r =>
      match skipWs r with
      | ']' :: rest => some (Json.jarr [], rest)
      | _ => parseElems fuel r []
    | '\x7b' :: r =>
      match skipWs r with
      | '\x7d' :: rest => some (Json.jobj [], rest)
      | _ => parseMembers fuel r []
    | s2 => (parseNumber s2).map fun p => (Json.jnum p.1, p.2)

def parseElems : Nat → List Char → List Json → Option (Json × List Char)
  | 0, _, _ => none
  | fuel + 1, s, acc =>
    match parseValue fuel s with
    | none => none
    | some (v, rest) =>
      match skipWs rest with
      | ',' :: r2 => parseElems fuel r2 (acc ++ [v])
      | ']' :: r2 => some (Json.jarr (acc ++ [v]), r2)
      | _ => none

def parseMembers : Nat → List Char →
    List (List Char × Json) → Option (Json × List Char)
  | 0, _, _ => none
  | fuel + 1, s, acc =>
    match skipWs s with
    | '"' :: r =>
      match parseStringRest r with
      | none => none
      | some (key, r2) =>
        match skipWs r2 with
        | ':' :: r3 =>
          match parseValue fuel r3 with
          | none => none
          | some (v, r4) =>
            match skipWs r4 with
            | ',' :: r5 => parseMembers fuel r5 (acc ++ [(key, v)])
            | '\x7d' :: r5 => some (Json.jobj (acc ++ [(key, v)]), r5)
            | _ => none
        | _ => none
    | _ => none

end

/-- json.loads: the whole input must be one value, modulo whitespace. -/
def jsonDecode (s : List Char) : Option Json :=
  match parseValue (s.length + 1) s with
  | some (j, rest) => if (skipWs rest).isEmpty then some j else none
  | none => none

/-- The characters up to and including the first closing bracket. -/
def takeUpToClose : List Char → Option (List Char)
  | [] => none
  | c :: rest =>
    if c = ']' then some [']']
    else (takeUpToClose rest).map fun l => c :: l

/-- The regex search for a bracketed array (DOTALL, non-greedy): the
slice from the first opening bracket that has a later closing bracket,
up to the first closing bracket after it. -/
def extractSlice : List Char → Option (List Char)
  | [] => none
  | c :: rest =>
    if c = '[' then
      match takeUpToClose rest with
      | some inner => some ('[' :: inner)
      | none => extractSlice rest
    else extractSlice rest

/-- One per-record AI-stage evaluation dict: score, keep, reason. -/
structure AIEval where
  score : Int
  keep : Bool
  reason : String
deriving Repr, DecidableEq

/-- Python dict lookup on a decoded object: the last duplicate key wins,
as in json.loads. -/
def objGet (fields : List (List Char × Json)) (key : List Char) : Option Json :=
  fields.reverse.lookup key

/-- Python truthiness of a decoded JSON value. -/
def jsonTruthy : Json → Bool
  | Json.jnull => false
  | Json.jbool b => b
  | Json.jnum n => decide (n ≠ 0)
  | Json.jstr s => !s.isEmpty
  | Json.jarr l => !l.isEmpty
  | Json.jobj l => !l.isEmpty

/-- A decoded value usable in an integer comparison: ints and bools
(Python bool is an int); anything else raises TypeError in Python. -/
def jsonAsInt : Json → Option Int
  | Json.jnum n => some n
  | Json.jbool b => some (if b then 1 else 0)
  | _ => none

def isObj : Json → Bool
  | Json.jobj _ => true
  | _ => false

/-- The body of the standardization loop of parse_ai_response for index
i: the error case models a raised AttributeError or TypeError, caught by
the surrounding try.  The comparison score greater-or-equal 7 is
evaluated eagerly in the source (it is the argument of dict.get), so a
non-comparable score raises even when the keep field is present. -/
def stdOne (evaluations : List Json) (i : Nat) : Except String AIEval :=
  match evaluations[i]? with
  | some item =>
    match item with
    | Json.jobj fields =>
      let scoreJ := (objGet fields ("score".toList)).getD (Json.jnum 7)
      match jsonAsInt scoreJ with
      | none => Except.error "不支持的分数类型比较"
      | some score =>
        let keep : Bool :=
          match objGet fields ("keep".toList) with
          | some v => jsonTruthy v
          | none => decide (7 ≤ score)
        Except.ok ⟨score, keep, "AI评估(分数:" ++ toString score ++ ")"⟩
    | _ => Except.error "条目缺少get属性"
  | none => Except.ok ⟨7, true, "AI评估(分数:" ++ toString (7 : Int) ++ ")"⟩

/-- The whole standardization loop over the given index list. -/
def stdAll (evaluations : List Json) : List Nat → Except String (List AIEval)
  | [] => Except.ok []
  | i :: rest =>
    match stdOne evaluations i with
    | Except.error e => Except.error e
    | Except.ok r =>
      match stdAll evaluations rest with
      | Except.error e => Except.error e
      | Except.ok rs => Except.ok (r :: rs)

/-- The default evaluations substituted when no array is found. -/
def defaultEvaluations (n : Nat) : List Json :=
  List.replicate n
    (Json.jobj [("score".toList, Json.jnum 7), ("keep".toList, Json.jbool true)])

/-- AIQualityEvaluator.parse_ai_response from filter.py. -/
def parse_ai_response (response_text : List Char) (entry_count : Nat) :
    List AIEval :=
  match extractSlice response_text with
  | some s =>
    match jsonDecode s with
    | some (Json.jarr evaluations) =>
      match stdAll evaluations (List.range entry_count) with
      | Except.ok rs => rs
      | Except.error e =>
        List.replicate entry_count ⟨7, true, "解析失败: " ++ e⟩
    | _ => List.replicate entry_count ⟨7, true, "解析失败: JSON解码错误"⟩
  | none =>
    match stdAll (defaultEvaluations entry_count) (List.range entry_count) with
    | Except.ok rs => rs
    | Except.error e => List.replicate entry_count ⟨7, true, "解析失败: " ++ e⟩

example :
    parse_ai_response
      ("[\x7b\"score\":8,\"keep\":true\x7d,\x7b\"score\":3,\"keep\":false\x7d]".toList)
      2
    = [⟨8, true, "AI评估(分数:8)"⟩, ⟨3, false, "AI评估(分数:3)"⟩] := by decide

example :
    parse_ai_response ("完全无法解析的文本".toList) 3
    = [⟨7, true, "AI评估(分数:7)"⟩, ⟨7, true, "AI评估(分数:7)"⟩,
       ⟨7, true, "AI评估(分数:7)"⟩] := by decide

example :
    parse_ai_response ("[1]".toList) 1
    = [⟨7, true, "解析失败: 条目缺少get属性"⟩] := by decide

lemma stdAll_ok_length (evals : List Json) (l : List Nat) (rs : List AIEval)
    (h : stdAll evals l = Except.ok rs) : rs.length = l.length := by
  induction l generalizing rs with
  | nil => simp only [stdAll] at h; cases h; rfl
  | cons i rest ih =>
    simp only [stdAll] at h
    cases h1 : stdOne evals i with
    | error e => rw [h1] at h; cases h
    | ok r =>
      rw [h1] at h
      cases h2 : stdAll evals rest with
      | error e => rw [h2] at h; cases h
      | ok rs2 =>
        rw [h2] at h
        cases h
        simp [ih rs2 h2]

lemma stdAll_ok_mem (evals : List Json) (l : List Nat) (rs : List AIEval)
    (h : stdAll evals l = Except.ok rs) :
    ∀ r ∈ rs, ∃ i, stdOne evals i = Except.ok r := by
  induction l generalizing rs with
  | nil => simp only [stdAll] at h; cases h; intro r hr; cases hr
  | cons i rest ih =>
    simp only [stdAll] at h
    cases h1 : stdOne evals i with
    | error e => rw [h1] at h; cases h
    | ok r0 =>
      rw [h1] at h
      cases h2 : stdAll evals rest with
      | error e => rw [h2] at h; cases h
      | ok rs2 =>
        rw [h2] at h
        cases h
        intro r hr
        rcases List.mem_cons.mp hr with h3 | h3
        · exact ⟨i, h3 ▸ h1⟩
        · exact ih rs2 h2 r h3

lemma stdAll_ok_get (evals : List Json) (l : List Nat) (rs : List AIEval)
    (h : stdAll evals l = Except.ok rs) :
    ∀ (k i : Nat), l[k]? = some i → ∀ (r : AIEval), rs[k]? = some r →
      stdOne evals i = Except.ok r := by
  induction l generalizing rs with
  | nil => intro k i hk; simp at hk
  | cons j rest ih =>
    simp only [stdAll] at h
    cases h1 : stdOne evals j with
    | error e => rw [h1] at h; cases h
    | ok r0 =>
      rw [h1] at h
      cases h2 : stdAll evals rest with
      | error e => rw [h2] at h; cases h
      | ok rs2 =>
        rw [h2] at h
        cases h
        intro k i hk r hr
        cases k with
        | zero =>
          simp only [List.getElem?_cons_zero] at hk hr
          cases hk; cases hr; exact h1
        | succ k2 =>
          simp only [List.getElem?_cons_succ] at hk hr
          exact ih rs2 h2 k2 i hk r hr

lemma stdAll_ok_of (evals : List Json) (l : List Nat) (f : Nat → AIEval)
    (h : ∀ i ∈ l, stdOne evals i = Except.ok (f i)) :
    stdAll evals l = Except.ok (l.map f) := by
  induction l with
  | nil => rfl
  | cons i rest ih =>
    simp only [stdAll, h i (List.mem_cons_self i rest),
      ih fun j hj => h j (List.mem_cons_of_mem i hj), List.map_cons]

lemma stdOne_default (n i : Nat) :
    stdOne (defaultEvaluations n) i
      = Except.ok ⟨7, true, "AI评估(分数:" ++ toString (7 : Int) ++ ")"⟩ := by
  by_cases hi : i < n
  · have hget : (defaultEvaluations n)[i]?
        = some (Json.jobj [(String.toList "score", Json.jnum 7),
            (String.toList "keep", Json.jbool true)]) := by
      simp [defaultEvaluations, List.getElem?_replicate, hi]
    simp only [stdOne, hget]
    rfl
  · have hget : (defaultEvaluations n)[i]? = none := by
      simp [defaultEvaluations, List.getElem?_replicate, hi]
    simp only [stdOne, hget]

lemma stdOne_ok_reason (evals : List Json) (i : Nat) (r : AIEval)
    (h : stdOne evals i = Except.ok r) :
    r.reason = "AI评估(分数:" ++ toString r.score ++ ")" := by
  simp only [stdOne] at h
  cases hget : evals[i]? with
  | none => rw [hget] at h; cases h; rfl
  | some item =>
    rw [hget] at h
    cases item with
    | jobj fields =>
      simp only at h
      cases hint : jsonAsInt ((objGet fields ("score".toList)).getD (Json.jnum 7)) with
      | none => rw [hint] at h; cases h
      | some sc => rw [hint] at h; cases h; rfl
    | jnull => cases h
    | jbool b => cases h
    | jnum m => cases h
    | jstr s2 => cases h
    | jarr l2 => cases h

/-- C4: when no bracketed array is located, or the located slice fails to
decode to an array, every returned item has score 7 and keep true; and on
any input at all, parse_ai_response returns (never raises) a list of
length exactly the expected count. -/
theorem parse_ai_response_fallback (text : List Char) (n : Nat)
    (h : extractSlice text = none ∨
      ∃ s, extractSlice text = some s ∧
        ∀ evals : List Json, jsonDecode s ≠ some (Json.jarr evals)) :
    (∀ r ∈ parse_ai_response text n, r.score = 7 ∧ r.keep = true)
    ∧ ∀ (t : List Char) (m : Nat), (parse_ai_response t m).length = m := by
  constructor
  · rcases h with hnone | ⟨s, hs, hdec⟩
    · intro r hr
      simp only [parse_ai_response, hnone] at hr
      cases hstd : stdAll (defaultEvaluations n) (List.range n) with
      | ok rs =>
        rw [hstd] at hr
        obtain ⟨i, hi⟩ := stdAll_ok_mem _ _ _ hstd r hr
        rw [stdOne_default] at hi
        cases hi
        exact ⟨rfl, rfl⟩
      | error e =>
        rw [hstd] at hr
        have := List.eq_of_mem_replicate hr
        subst this
        exact ⟨rfl, rfl⟩
    · intro r hr
      simp only [parse_ai_response, hs] at hr
      cases hdecv : jsonDecode s with
      | none =>
        have := List.eq_of_mem_replicate hr
        subst this
        exact ⟨rfl, rfl⟩
      | some j =>
        cases j with
        | jarr evals => exact absurd hdecv (hdec evals)
        | jnull =>
          have := List.eq_of_mem_replicate hr
          subst this
          exact ⟨rfl, rfl⟩
        | jbool b =>
          have := List.eq_of_mem_replicate hr
          subst this
          exact ⟨rfl, rfl⟩
        | jnum m2 =>
          have := List.eq_of_mem_replicate hr
          subst this
          exact ⟨rfl, rfl⟩
        | jstr s2 =>
          have := List.eq_of_mem_replicate hr
          subst this
          exact ⟨rfl, rfl⟩
        | jobj fs =>
          have := List.eq_of_mem_replicate hr
          subst this
          exact ⟨rfl, rfl⟩
  · intro t m
    cases hex : extractSlice t with
    | none =>
      cases hstd : stdAll (defaultEvaluations m) (List.range m) with
      | ok rs => simp [parse_ai_response, hex, hstd, stdAll_ok_length _ _ _ hstd]
      | error e => simp [parse_ai_response, hex, hstd]
    | some s =>
      cases hdecv : jsonDecode s with
      | none => simp [parse_ai_response, hex, hdecv]
      | some j =>
        cases j with
        | jarr evals =>
          cases hstd : stdAll evals (List.range m) with
          | ok rs =>
            simp [parse_ai_response, hex, hdecv, hstd,
              stdAll_ok_length _ _ _ hstd]
          | error e => simp [parse_ai_response, hex, hdecv, hstd]
        | jnull => simp [parse_ai_response, hex, hdecv]
        | jbool b => simp [parse_ai_response, hex, hdecv]
        | jnum m2 => simp [parse_ai_response, hex, hdecv]
        | jstr s2 => simp [parse_ai_response, hex, hdecv]
        | jobj fs => simp [parse_ai_response, hex, hdecv]

/-- Witness for C4 at a garbage text with no bracket and count 3. -/
theorem parse_ai_response_fallback_witness :
    extractSlice ("完全无法解析的文本".toList) = none
    ∧ ((∀ r ∈ parse_ai_response ("完全无法解析的文本".toList) 3,
          r.score = 7 ∧ r.keep = true)
        ∧ ∀ (t : List Char) (m : Nat), (parse_ai_response t m).length = m) :=
  ⟨rfl, parse_ai_response_fallback ("完全无法解析的文本".toList) 3 (Or.inl rfl)⟩

/-- The response text of the spec's concrete ResponseParser example. -/
def exText : List Char :=
  "[\x7b\"score\":8,\"keep\":true\x7d,\x7b\"score\":3,\"keep\":false\x7d]".toList

/-- The decoded array of the spec's concrete ResponseParser example. -/
def exEvals : List Json :=
  [Json.jobj [("score".toList, Json.jnum 8), ("keep".toList, Json.jbool true)],
   Json.jobj [("score".toList, Json.jnum 3), ("keep".toList, Json.jbool false)]]

/-- C5: when the located slice decodes to an array of objects, positions
beyond the array get score 7 and keep true; an item without a score field
resolves to score 7; an item without a keep field gets keep equal to
(its resolved score is at least 7); and the concrete two-item example
parses to scores 8,3 with keeps true,false. -/
theorem parse_ai_response_item_rules (text : List Char) (n : Nat)
    (s : List Char) (evals : List Json)
    (hs : extractSlice text = some s)
    (hdec : jsonDecode s = some (Json.jarr evals))
    (hobj : ∀ j ∈ evals, isObj j = true) :
    (∀ (k : Nat) (r : AIEval), evals.length ≤ k →
        (parse_ai_response text n)[k]? = some r → r.score = 7 ∧ r.keep = true)
    ∧ (∀ (k : Nat) (fields : List (List Char × Json)) (r : AIEval),
        evals[k]? = some (Json.jobj fields) →
        objGet fields ("score".toList) = none →
        (parse_ai_response text n)[k]? = some r → r.score = 7)
    ∧ (∀ (k : Nat) (fields : List (List Char × Json)) (r : AIEval),
        evals[k]? = some (Json.jobj fields) →
        objGet fields ("keep".toList) = none →
        (parse_ai_response text n)[k]? = some r →
        r.keep = decide (7 ≤ r.score))
    ∧ parse_ai_response exText 2
        = [⟨8, true, "AI评估(分数:8)"⟩, ⟨3, false, "AI评估(分数:3)"⟩] := by
  cases hstd : stdAll evals (List.range n) with
  | error e =>
    have hout : parse_ai_response text n
        = List.replicate n ⟨7, true, "解析失败: " ++ e⟩ := by
      simp [parse_ai_response, hs, hdec, hstd]
    refine ⟨?_, ?_, ?_, by decide⟩
    · intro k r hk hr
      rw [hout, List.getElem?_replicate] at hr
      by_cases hkn : k < n
      · rw [if_pos hkn] at hr; cases hr; exact ⟨rfl, rfl⟩
      · rw [if_neg hkn] at hr; cases hr
    · intro k fields r hkf hscore hr
      rw [hout, List.getElem?_replicate] at hr
      by_cases hkn : k < n
      · rw [if_pos hkn] at hr; cases hr; rfl
      · rw [if_neg hkn] at hr; cases hr
    · intro k fields r hkf hkeep hr
      rw [hout, List.getElem?_replicate] at hr
      by_cases hkn : k < n
      · rw [if_pos hkn] at hr; cases hr; rfl
      · rw [if_neg hkn] at hr; cases hr
  | ok rs =>
    have hout : parse_ai_response text n = rs := by
      simp [parse_ai_response, hs, hdec, hstd]
    have hlen : rs.length = n := by
      rw [stdAll_ok_length evals _ rs hstd, List.length_range]
    have hstdone : ∀ (k : Nat) (r : AIEval), rs[k]? = some r →
        stdOne evals k = Except.ok r := by
      intro k r hr
      have hk : k < n := by
        have h2 := (List.getElem?_eq_some.mp hr).1
        omega
      exact stdAll_ok_get evals _ rs hstd k k (List.getElem?_range hk) r hr
    refine ⟨?_, ?_, ?_, by decide⟩
    · intro k r hk hr
      rw [hout] at hr
      have h1 := hstdone k r hr
      have hnone : evals[k]? = none := List.getElem?_eq_none hk
      simp only [stdOne, hnone] at h1
      cases h1
      exact ⟨rfl, rfl⟩
    · intro k fields r hkf hscore hr
      rw [hout] at hr
      have h1 := hstdone k r hr
      simp only [stdOne, hkf, hscore, Option.getD_none, jsonAsInt] at h1
      cases h1
      rfl
    · intro k fields r hkf hkeep hr
      rw [hout] at hr
      have h1 := hstdone k r hr
      simp only [stdOne, hkf, hkeep] at h1
      cases hint : jsonAsInt ((objGet fields ("score".toList)).getD (Json.jnum 7)) with
      | none => rw [hint] at h1; cases h1
      | some sc => rw [hint] at h1; cases h1; rfl

/-- Witness for C5 at the spec's concrete example. -/
theorem parse_ai_response_item_rules_witness :
    extractSlice exText = some exText
    ∧ jsonDecode exText = some (Json.jarr exEvals)
    ∧ parse_ai_response exText 2
        = [⟨8, true, "AI评估(分数:8)"⟩, ⟨3, false, "AI评估(分数:3)"⟩] :=
  ⟨rfl, rfl,
    (parse_ai_response_item_rules exText 2 exText exEvals rfl rfl
      (by decide)).2.2.2⟩

/-- C8 counterexample: on a decodable array whose item is not an object,
the standardization raises and the fallback reason is the failure
template, which does not embed the resolved score. -/
theorem parse_ai_response_reason_not_templated :
    ∃ r ∈ parse_ai_response ("[1]".toList) 1,
      r.reason ≠ "AI评估(分数:" ++ toString r.score ++ ")" := by
  refine ⟨⟨7, true, "解析失败: 条目缺少get属性"⟩, by decide, by decide⟩

/-- C8 (amended): every returned item's reason is synthesized by the
parser itself, never taken from the service: it is the evaluation
template embedding the item's resolved score, except on the
standardization-failure path, where every item carries the uniform
failure template instead. -/
theorem parse_ai_response_reason_shape (text : List Char) (n : Nat) :
    ∀ r ∈ parse_ai_response text n,
      r.reason = "AI评估(分数:" ++ toString r.score ++ ")"
      ∨ ∃ e, r.reason = "解析失败: " ++ e := by
  intro r hr
  cases hex : extractSlice text with
  | none =>
    cases hstd : stdAll (defaultEvaluations n) (List.range n) with
    | ok rs =>
      simp only [parse_ai_response, hex, hstd] at hr
      obtain ⟨i, hi⟩ := stdAll_ok_mem _ _ _ hstd r hr
      exact Or.inl (stdOne_ok_reason _ _ _ hi)
    | error e =>
      simp only [parse_ai_response, hex, hstd] at hr
      have := List.eq_of_mem_replicate hr
      subst this
      exact Or.inr ⟨e, rfl⟩
  | some s =>
    cases hdecv : jsonDecode s with
    | none =>
      simp only [parse_ai_response, hex, hdecv] at hr
      have := List.eq_of_mem_replicate hr
      subst this
      exact Or.inr ⟨"JSON解码错误", rfl⟩
    | some j =>
      cases j with
      | jarr evals =>
        cases hstd : stdAll evals (List.range n) with
        | ok rs =>
          simp only [parse_ai_response, hex, hdecv, hstd] at hr
          obtain ⟨i, hi⟩ := stdAll_ok_mem _ _ _ hstd r hr
          exact Or.inl (stdOne_ok_reason _ _ _ hi)
        | error e =>
          simp only [parse_ai_response, hex, hdecv, hstd] at hr
          have := List.eq_of_mem_replicate hr
          subst this
          exact Or.inr ⟨e, rfl⟩
      | jnull =>
        simp only [parse_ai_response, hex, hdecv] at hr
        have := List.eq_of_mem_replicate hr
        subst this
        exact Or.inr ⟨"JSON解码错误", rfl⟩
      | jbool b =>
        simp only [parse_ai_response, hex, hdecv] at hr
        have := List.eq_of_mem_replicate hr
        subst this
        exact Or.inr ⟨"JSON解码错误", rfl⟩
      | jnum m2 =>
        simp only [parse_ai_response, hex, hdecv] at hr
        have := List.eq_of_mem_replicate hr
        subst this
        exact Or.inr ⟨"JSON解码错误", rfl⟩
      | jstr s2 =>
        simp only [parse_ai_response, hex, hdecv] at hr
        have := List.eq_of_mem_replicate hr
        subst this
        exact Or.inr ⟨"JSON解码错误", rfl⟩
      | jobj fs =>
        simp only [parse_ai_response, hex, hdecv] at hr
        have := List.eq_of_mem_replicate hr
        subst this
        exact Or.inr ⟨"JSON解码错误", rfl⟩

/-- Witness for the amended C8 at a garbage input. -/
theorem parse_ai_response_reason_shape_witness :
    (⟨7, true, "AI评估(分数:7)"⟩ : AIEval) ∈ parse_ai_response ("垃圾".toList) 1
    ∧ ((⟨7, true, "AI评估(分数:7)"⟩ : AIEval).reason
          = "AI评估(分数:" ++ toString (⟨7, true, "AI评估(分数:7)"⟩ : AIEval).score ++ ")"
        ∨ ∃ e, (⟨7, true, "AI评估(分数:7)"⟩ : AIEval).reason = "解析失败: " ++ e) :=
  ⟨by decide,
    parse_ai_response_reason_shape ("垃圾".toList) 1
      ⟨7, true, "AI评估(分数:7)"⟩ (by decide)⟩

/-- AIQualityEvaluator.create_evaluation_prompt from filter.py. -/
def create_evaluation_prompt (entries_data : List (List Char × List Char)) :
    String :=
  let batch_items := entries_data.enum.map fun p =>
    let truncated_question := if p.2.1.length > 100 then p.2.1.take 100 else p.2.1
    let truncated_answer := if p.2.2.length > 300 then p.2.2.take 300 else p.2.2
    "[" ++ toString (p.1 + 1) ++ "] Q: " ++ String.mk truncated_question
      ++ "\nA: " ++ String.mk truncated_answer
  "请评估以下" ++ toString batch_items.length ++ "个酒店服务问答对的质量。\n"
    ++ "评分标准：1-10分，7分及以上为高质量数据。\n\n"
    ++ "评估要点：\n"
    ++ "1. 问题是否清晰具体且与酒店服务相关？\n"
    ++ "2. 回答是否专业准确且有实用价值？\n"
    ++ "3. 问答是否匹配且逻辑合理？\n\n"
    ++ String.intercalate "\n" batch_items
    ++ "\n\n请严格按照JSON数组格式回复：\n"
    ++ "[\x7b\"score\":8,\"keep\":true\x7d,\x7b\"score\":6,\"keep\":false\x7d...]"

/-- AIQualityEvaluator.evaluate_batch from filter.py.  The injected
collaborator generate models ai_manager.generate_content; its error case
models a raised exception, caught by the try around the call. -/
def evaluate_batch (generate : String → Except String String)
    (entries : List (Nat × Entry)) (batch_id : Nat) : List (Nat × AIEval) :=
  if entries.isEmpty then []
  else
    let entries_data := entries.filterMap fun p => extractQA p.2
    let valid_entries := entries.filter fun p => (extractQA p.2).isSome
    if entries_data.isEmpty then
      entries.map fun p => (p.1, ⟨5, true, "数据格式错误"⟩)
    else
      match generate (create_evaluation_prompt entries_data) with
      | Except.error e =>
        valid_entries.map fun p =>
          (p.1, ⟨6, true, "评估失败-批次" ++ toString batch_id ++ ": " ++ e⟩)
      | Except.ok response_text =>
        let evaluations :=
          parse_ai_response response_text.toList valid_entries.length
        List.zipWith
          (fun p ev =>
            (p.1, { ev with reason := "AI评估-批次" ++ toString batch_id
              ++ "(分数:" ++ toString ev.score ++ ")" }))
          valid_entries evaluations

lemma filterMap_length_of_isSome {α β : Type} (f : α → Option β) (l : List α)
    (h : ∀ x ∈ l, (f x).isSome = true) : (l.filterMap f).length = l.length := by
  induction l with
  | nil => rfl
  | cons x xs ih =>
    have hx := h x (List.mem_cons_self x xs)
    cases hfx : f x with
    | none => rw [hfx] at hx; cases hx
    | some b =>
      rw [List.filterMap_cons, hfx]
      simp [ih fun y hy => h y (List.mem_cons_of_mem x hy)]

/-- C6: a batch of extractable records whose injected collaborator raises
on every call yields, for every member of the batch, the conservative
fallback score 6, keep true, with a reason naming the batch and the
error. -/
theorem evaluate_batch_collaborator_failure
    (generate : String → Except String String) (msg : String)
    (entries : List (Nat × Entry)) (batch_id : Nat)
    (hgen : ∀ s, generate s = Except.error msg)
    (hne : entries ≠ [])
    (hwf : ∀ p ∈ entries, (extractQA p.2).isSome = true) :
    evaluate_batch generate entries batch_id
      = entries.map fun p =>
          (p.1, ⟨6, true, "评估失败-批次" ++ toString batch_id ++ ": " ++ msg⟩) := by
  have hval : entries.filter (fun p => (extractQA p.2).isSome) = entries :=
    List.filter_eq_self.mpr hwf
  have hlen : (entries.filterMap fun p => extractQA p.2).length = entries.length :=
    filterMap_length_of_isSome _ entries hwf
  have hie : entries.isEmpty = false := by
    cases entries with
    | nil => exact absurd rfl hne
    | cons x xs => rfl
  have hde : (entries.filterMap fun p => extractQA p.2).isEmpty = false := by
    cases hfm : entries.filterMap fun p => extractQA p.2 with
    | nil =>
      rw [hfm] at hlen
      exact absurd (List.length_eq_zero.mp hlen.symm) hne
    | cons y ys => rfl
  simp only [evaluate_batch, hie, hde, hgen, hval, Bool.false_eq_true,
    if_false]

/-- A collaborator that raises on every call. -/
def failingGenerate : String → Except String String :=
  fun _ => Except.error "配额超限"

/-- Witness for C6: a one-record batch with an always-raising
collaborator. -/
theorem evaluate_batch_collaborator_failure_witness :
    (∀ s, failingGenerate s = Except.error "配额超限")
    ∧ evaluate_batch failingGenerate [(0, eA)] 3
        = [(0, ⟨6, true, "评估失败-批次3: 配额超限"⟩)] :=
  ⟨fun _ => rfl, by
    rw [evaluate_batch_collaborator_failure failingGenerate "配额超限"
      [(0, eA)] 3 (fun _ => rfl) (by decide) (by decide)]
    rfl⟩

/-- Placeholder FilterResult; never observed under the length
hypotheses (Python raises IndexError out of range instead). -/
def dummyResult : FilterResult := ⟨0, false, 0, "", "", emptyStats⟩

/-- The neutral default evaluation substituted by merge_results for a
rule-passed record absent from the AI evaluation mapping. -/
def neutralEvaluation : AIEval := ⟨5, true, "未进行AI评估"⟩

/-- The AI-stage FilterResult built by merge_results for a rule-passed
record at index i. -/
def aiFinalFor (ai_evaluations : Nat → Option AIEval)
    (config : ProcessingConfig) (i : Nat) (rule_result : FilterResult) :
    FilterResult :=
  let ai_evaluation := (ai_evaluations i).getD neutralEvaluation
  { index := i
    is_kept := ai_evaluation.keep && decide (config.min_score ≤ ai_evaluation.score)
    score := ai_evaluation.score
    reason := ai_evaluation.reason
    stage := "ai_evaluation"
    stats := rule_result.stats }

/-- The FilterResult that one loop iteration of merge_results handles. -/
def finalResultFor (rule_results : List FilterResult)
    (ai_evaluations : Nat → Option AIEval) (config : ProcessingConfig)
    (i : Nat) : FilterResult :=
  let rule_result := rule_results.getD i dummyResult
  if rule_result.is_kept then aiFinalFor ai_evaluations config i rule_result
  else rule_result

/-- The loop of merge_results over the record indices, building the two
partitions in index order. -/
def mergeLoop (rule_results : List FilterResult)
    (ai_evaluations : Nat → Option AIEval) (config : ProcessingConfig) :
    List Nat → List FilterResult × List FilterResult
  | [] => ([], [])
  | i :: rest =>
    let tails := mergeLoop rule_results ai_evaluations config rest
    let rule_result := rule_results.getD i dummyResult
    if rule_result.is_kept then
      let final := aiFinalFor ai_evaluations config i rule_result
      if final.is_kept then (final :: tails.1, tails.2)
      else (tails.1, final :: tails.2)
    else (tails.1, rule_result :: tails.2)

/-- HotelDataQualityFilter.merge_results from filter.py.  The AI
evaluation dict is the mapping from original index to evaluation; the
loop enumerates the records and indexes rule_results (Python raises on a
rule list shorter than the record list; the theorems assume matching
lengths). -/
def merge_results (data_entries : List Entry)
    (rule_results : List FilterResult)
    (ai_evaluations : Nat → Option AIEval) (config : ProcessingConfig) :
    List FilterResult × List FilterResult :=
  mergeLoop rule_results ai_evaluations config
    (List.range data_entries.length)

lemma mergeLoop_eq (rule_results : List FilterResult)
    (ai : Nat → Option AIEval) (config : ProcessingConfig) (l : List Nat) :
    mergeLoop rule_results ai config l
      = ((l.map (finalResultFor rule_results ai config)).filter
            (fun r => r.is_kept),
         (l.map (finalResultFor rule_results ai config)).filter
            (fun r => !r.is_kept)) := by
  induction l with
  | nil => rfl
  | cons i rest ih =>
    simp only [mergeLoop, ih, List.map_cons, List.filter_cons, finalResultFor]
    generalize rule_results.getD i dummyResult = r0
    generalize aiFinalFor ai config i r0 = f0
    cases hk : r0.is_kept with
    | true =>
      cases hk2 : f0.is_kept with
      | true => simp [hk, hk2]
      | false => simp [hk, hk2]
    | false => simp [hk]

/-- C2: for matching-length inputs whose rule results carry their own
index, the two partitions produced by merge_results have lengths summing
to the record count, and their indices together are exactly the set of
record indices (disjoint and exhaustive). -/
theorem merge_results_partition (data_entries : List Entry)
    (rule_results : List FilterResult) (ai : Nat → Option AIEval)
    (config : ProcessingConfig)
    (hlen : rule_results.length = data_entries.length)
    (hidx : rule_results.map FilterResult.index
        = List.range rule_results.length) :
    (merge_results data_entries rule_results ai config).1.length
        + (merge_results data_entries rule_results ai config).2.length
      = data_entries.length
    ∧ (((merge_results data_entries rule_results ai config).1
          ++ (merge_results data_entries rule_results ai config).2).map
            FilterResult.index).Perm
        (List.range data_entries.length) := by
  have hfin : ∀ i ∈ List.range data_entries.length,
      (finalResultFor rule_results ai config i).index = i := by
    intro i hi
    have hi2 : i < rule_results.length := by
      rw [hlen]
      exact List.mem_range.mp hi
    unfold finalResultFor
    by_cases hk : (rule_results.getD i dummyResult).is_kept
    · rw [if_pos hk]
      rfl
    · rw [if_neg hk]
      have h1 : (List.map FilterResult.index rule_results)[i]?
          = (List.range rule_results.length)[i]? := by
        rw [hidx]
      have h2 : rule_results[i]? = some (rule_results.getD i dummyResult) := by
        rw [List.getD_eq_getElem rule_results dummyResult hi2]
        exact List.getElem?_eq_some.mpr ⟨hi2, rfl⟩
      rw [List.getElem?_map, List.getElem?_range hi2, h2] at h1
      simpa using h1
  have hperm : ((List.range data_entries.length).map
        (finalResultFor rule_results ai config)).filter (fun r => r.is_kept)
      ++ ((List.range data_entries.length).map
        (finalResultFor rule_results ai config)).filter (fun r => !r.is_kept)
      |>.Perm ((List.range data_entries.length).map
        (finalResultFor rule_results ai config)) :=
    List.filter_append_perm _ _
  have hm : merge_results data_entries rule_results ai config
      = (((List.range data_entries.length).map
            (finalResultFor rule_results ai config)).filter
              (fun r => r.is_kept),
         ((List.range data_entries.length).map
            (finalResultFor rule_results ai config)).filter
              (fun r => !r.is_kept)) :=
    mergeLoop_eq rule_results ai config _
  have hmapidx : ((List.range data_entries.length).map
        (finalResultFor rule_results ai config)).map FilterResult.index
      = List.range data_entries.length := by
    rw [List.map_map]
    calc (List.range data_entries.length).map
          (FilterResult.index ∘ finalResultFor rule_results ai config)
        = (List.range data_entries.length).map id :=
          List.map_congr_left hfin
      _ = List.range data_entries.length := List.map_id _
  constructor
  · rw [hm]
    have h2 := hperm.length_eq
    rw [List.length_append] at h2
    rw [h2, List.length_map, List.length_range]
  · rw [hm]
    have h3 := hperm.map FilterResult.index
    rw [hmapidx] at h3
    simpa using h3

/-- A concrete rule-stage result for the witness instances. -/
def ruleKeptDemo : FilterResult := ⟨0, true, 5, "通过规则检查", "rule_filter", emptyStats⟩

/-- Witness for C2 at a one-record instance with an empty evaluation
mapping. -/
theorem merge_results_partition_witness :
    ([ruleKeptDemo].length = [eA].length
      ∧ [ruleKeptDemo].map FilterResult.index
          = List.range [ruleKeptDemo].length)
    ∧ (merge_results [eA] [ruleKeptDemo] (fun _ => none) ⟨7, 12, 6, none⟩).1.length
        + (merge_results [eA] [ruleKeptDemo] (fun _ => none) ⟨7, 12, 6, none⟩).2.length
      = [eA].length :=
  ⟨⟨rfl, rfl⟩,
    (merge_results_partition [eA] [ruleKeptDemo] (fun _ => none)
      ⟨7, 12, 6, none⟩ rfl rfl).1⟩

/-- The FilterResult built by the apply_rule_filtering loop for one
record: rejected records score 0, accepted ones the provisional 5. -/
def ruleResultFor (index : Nat) (entry : Entry) : FilterResult :=
  let v := validate_entry entry
  ⟨index, v.1, if v.1 then 5 else 0, v.2.1, "rule_filter", v.2.2⟩

/-- All rule-stage results of apply_rule_filtering, in input order. -/
def ruleResultsOf (data_entries : List Entry) : List FilterResult :=
  data_entries.enum.map fun p => ruleResultFor p.1 p.2

/-- The rule-passed (index, record) pairs of apply_rule_filtering. -/
def passedEntriesOf (data_entries : List Entry) : List (Nat × Entry) :=
  data_entries.enum.filter fun p => (validate_entry p.2).1

/-- HotelDataQualityFilter.apply_rule_filtering from filter.py: the
error case models the ZeroDivisionError raised while computing the pass
rate len(passed)/len(entries) when the input list is empty, which
happens after the loop and before any result is returned. -/
def apply_rule_filtering (data_entries : List Entry) :
    Except String (List (Nat × Entry) × List FilterResult) :=
  if data_entries.length = 0 then
    Except.error "ZeroDivisionError: division by zero"
  else Except.ok (passedEntriesOf data_entries, ruleResultsOf data_entries)

def dummyEntry : Entry := ⟨[]⟩

lemma ruleResultsOf_getD (d : List Entry) (i : Nat) (hi : i < d.length) :
    (ruleResultsOf d).getD i dummyResult
      = ruleResultFor i (d.getD i dummyEntry) := by
  have h2 : d[i]? = some (d.getD i dummyEntry) := by
    rw [List.getD_eq_getElem d dummyEntry hi]
    exact List.getElem?_eq_some.mpr ⟨hi, rfl⟩
  have h1 : (ruleResultsOf d)[i]?
      = some (ruleResultFor i (d.getD i dummyEntry)) := by
    rw [ruleResultsOf, List.getElem?_map, List.getElem?_enum, h2]
    rfl
  rw [List.getD_eq_getElem?_getD, h1]
  rfl

/-- C3: in merge_results, a rule-accepted record at index i lands in the
high-quality partition exactly when its evaluation (the neutral default
score 5 / keep true / reason 未进行AI评估 when index i is absent from the
mapping) has keep true and score at least min_score; a rule-rejected
record is placed verbatim in the low-quality partition and its
rule-stage score is 0. -/
theorem merge_results_rule_stage (data_entries : List Entry)
    (rule_results : List FilterResult) (ai : Nat → Option AIEval)
    (config : ProcessingConfig)
    (hrr : rule_results = ruleResultsOf data_entries)
    (i : Nat) (hi : i < data_entries.length) :
    ((rule_results.getD i dummyResult).is_kept = true →
      ((aiFinalFor ai config i (rule_results.getD i dummyResult)
          ∈ (merge_results data_entries rule_results ai config).1)
        ↔ (((ai i).getD neutralEvaluation).keep = true
            ∧ config.min_score ≤ ((ai i).getD neutralEvaluation).score))
      ∧ (ai i = none →
          (ai i).getD neutralEvaluation = ⟨5, true, "未进行AI评估"⟩)
      ∧ (aiFinalFor ai config i (rule_results.getD i dummyResult)).score
          = ((ai i).getD neutralEvaluation).score)
    ∧ ((rule_results.getD i dummyResult).is_kept = false →
        rule_results.getD i dummyResult
            ∈ (merge_results data_entries rule_results ai config).2
        ∧ (rule_results.getD i dummyResult).score = 0) := by
  have hm := mergeLoop_eq rule_results ai config
    (List.range data_entries.length)
  have hhigh : (merge_results data_entries rule_results ai config).1
      = ((List.range data_entries.length).map
          (finalResultFor rule_results ai config)).filter
            (fun r => r.is_kept) := by
    simp only [merge_results, hm]
  have hlow : (merge_results data_entries rule_results ai config).2
      = ((List.range data_entries.length).map
          (finalResultFor rule_results ai config)).filter
            (fun r => !r.is_kept) := by
    simp only [merge_results, hm]
  have hmem : finalResultFor rule_results ai config i
      ∈ (List.range data_entries.length).map
          (finalResultFor rule_results ai config) :=
    List.mem_map.mpr ⟨i, List.mem_range.mpr hi, rfl⟩
  constructor
  · intro hk
    have hfe : finalResultFor rule_results ai config i
        = aiFinalFor ai config i (rule_results.getD i dummyResult) := by
      unfold finalResultFor
      rw [if_pos hk]
    refine ⟨?_, ?_, rfl⟩
    · constructor
      · intro hin
        rw [hhigh] at hin
        have h3 := (List.mem_filter.mp hin).2
        simpa [aiFinalFor, Bool.and_eq_true, decide_eq_true_iff] using h3
      · rintro ⟨hkeep, hsc⟩
        rw [hhigh]
        refine List.mem_filter.mpr ⟨hfe ▸ hmem, ?_⟩
        simp [aiFinalFor, hkeep, hsc]
    · intro hnone
      rw [hnone]
      rfl
  · intro hk
    have hfe : finalResultFor rule_results ai config i
        = rule_results.getD i dummyResult := by
      unfold finalResultFor
      rw [if_neg (by rw [hk]; simp)]
    constructor
    · rw [hlow]
      refine List.mem_filter.mpr ⟨hfe ▸ hmem, ?_⟩
      simp only [hk, Bool.not_false]
    · rw [hrr, ruleResultsOf_getD data_entries i hi] at hk ⊢
      simp only [ruleResultFor] at hk ⊢
      rw [hk]
      rfl

/-- Witness for C3: a one-record input whose record passes the rules but
is absent from the evaluation mapping; the neutral default score 5 is
below min_score 7, so the record is not in the high partition. -/
theorem merge_results_rule_stage_witness :
    ((ruleResultsOf [eA]).getD 0 dummyResult).is_kept = true
    ∧ ¬ (aiFinalFor (fun _ => none) ⟨7, 12, 6, none⟩ 0
          ((ruleResultsOf [eA]).getD 0 dummyResult)
        ∈ (merge_results [eA] (ruleResultsOf [eA]) (fun _ => none)
            ⟨7, 12, 6, none⟩).1) := by
  refine ⟨by decide, ?_⟩
  intro hin
  have h := ((merge_results_rule_stage [eA] (ruleResultsOf [eA])
    (fun _ => none) ⟨7, 12, 6, none⟩ rfl 0 (by decide)).1
      (by decide)).1.mp hin
  exact absurd h.2 (by decide)

/-- The contiguous batches passed[i:i+n] of apply_ai_evaluation.  Python
raises for a zero batch size (range step 0); the theorems assume a
positive one. -/
def chunksOf {α : Type} (n : Nat) (l : List α) : List (List α) :=
  if h : l.isEmpty ∨ n = 0 then []
  else l.take n :: chunksOf n (l.drop n)
termination_by l.length
decreasing_by
  rcases not_or.mp h with ⟨h1, h2⟩
  have h3 : 0 < l.length := by
    cases l with
    | nil => exact absurd rfl h1
    | cons x xs => simp
  have h4 : 0 < n := Nat.pos_of_ne_zero h2
  simp only [List.length_drop]
  omega

/-- Each batch evaluated with its batch identifier equal to its
position, in submission order. -/
def evalBatches (generate : String → Except String String) :
    Nat → List (List (Nat × Entry)) → List (List (Nat × AIEval))
  | _, [] => []
  | batch_id, b :: rest =>
    evaluate_batch generate b batch_id
      :: evalBatches generate (batch_id + 1) rest

/-- One dict store all_evaluations[original_index] = evaluation. -/
def dictInsert (m : Nat → Option AIEval) (p : Nat × AIEval) :
    Nat → Option AIEval :=
  fun i => if i = p.1 then some p.2 else m i

/-- Merging one completed batch's pairs into the shared dict. -/
def insertBatch (m : Nat → Option AIEval) (br : List (Nat × AIEval)) :
    Nat → Option AIEval :=
  br.foldl dictInsert m

/-- Merging the completed batches in the given completion order. -/
def collectEvaluations (batch_results : List (List (Nat × AIEval))) :
    Nat → Option AIEval :=
  batch_results.foldl insertBatch (fun _ => none)

/-- The per-batch results in submission order. -/
def batchResultsOf (generate : String → Except String String)
    (passed_entries : List (Nat × Entry)) (config : ProcessingConfig) :
    List (List (Nat × AIEval)) :=
  evalBatches generate 0 (chunksOf config.batch_size passed_entries)

/-- HotelDataQualityFilter.apply_ai_evaluation from filter.py, as the
final index-to-evaluation mapping.  The worker pool's only effect on the
mapping is the order in which completed batches are merged; this pure
model merges them in submission order, and the order-independence
theorem quantifies over every completion order. -/
def apply_ai_evaluation (generate : String → Except String String)
    (passed_entries : List (Nat × Entry)) (config : ProcessingConfig) :
    Nat → Option AIEval :=
  if passed_entries.isEmpty then fun _ => none
  else collectEvaluations (batchResultsOf generate passed_entries config)

lemma lookup_eq_none_of_not_mem_keys {β : Type} (l : List (Nat × β)) (k : Nat)
    (h : k ∉ l.map Prod.fst) : List.lookup k l = none := by
  induction l with
  | nil => rfl
  | cons p rest ih =>
    simp only [List.map_cons, List.mem_cons] at h
    push_neg at h
    cases p with
    | mk a b =>
      rw [List.lookup_cons]
      have hbe : (k == a) = false := by simp [h.1]
      rw [hbe]
      exact ih h.2

lemma mem_keys_of_lookup_eq_some {β : Type} (l : List (Nat × β)) (k : Nat)
    (v : β) (h : List.lookup k l = some v) : k ∈ l.map Prod.fst := by
  induction l with
  | nil => cases h
  | cons p rest ih =>
    cases p with
    | mk a b =>
      rw [List.lookup_cons] at h
      by_cases hk : k = a
      · simp [hk]
      · have hbe : (k == a) = false := by simp [hk]
        rw [hbe] at h
        simp [ih h]

lemma insertBatch_eq (br : List (Nat × AIEval)) (m : Nat → Option AIEval)
    (i : Nat) :
    insertBatch m br i
      = match List.lookup i br.reverse with
        | some v => some v
        | none => m i := by
  induction br generalizing m with
  | nil => rfl
  | cons p rest ih =>
    show insertBatch (dictInsert m p) rest i = _
    rw [ih, List.reverse_cons, List.lookup_append]
    cases hl : List.lookup i rest.reverse with
    | some v => rfl
    | none =>
      cases p with
      | mk a v2 =>
        by_cases hi : i = a
        · subst hi
          simp [dictInsert, List.lookup_cons]
        · have hbe : (i == a) = false := by simp [hi]
          simp [dictInsert, List.lookup_cons, hi, hbe]

lemma insertBatch_comm (m : Nat → Option AIEval)
    (x y : List (Nat × AIEval))
    (hxy : ∀ k ∈ x.map Prod.fst, k ∉ y.map Prod.fst) :
    insertBatch (insertBatch m x) y = insertBatch (insertBatch m y) x := by
  funext i
  simp only [insertBatch_eq]
  cases hx : List.lookup i x.reverse with
  | some v =>
    have hkx : i ∈ x.map Prod.fst := by
      have h2 := mem_keys_of_lookup_eq_some _ _ _ hx
      simpa [List.map_reverse, List.mem_reverse] using h2
    have hy : List.lookup i y.reverse = none := by
      apply lookup_eq_none_of_not_mem_keys
      simpa [List.map_reverse, List.mem_reverse] using hxy i hkx
    rw [hy]
  | none =>
    cases hy : List.lookup i y.reverse with
    | some w => rfl
    | none => rfl

lemma collectEvaluations_perm (l1 l2 : List (List (Nat × AIEval)))
    (h : l1.Perm l2)
    (hd : l1.Pairwise fun a b => ∀ k ∈ a.map Prod.fst, k ∉ b.map Prod.fst) :
    collectEvaluations l1 = collectEvaluations l2 := by
  unfold collectEvaluations
  apply h.foldl_eq'
  intro x hx y hy m
  by_cases hxy : x = y
  · subst hxy
    rfl
  · have hsym : Symmetric (fun (a b : List (Nat × AIEval)) =>
        ∀ k ∈ a.map Prod.fst, k ∉ b.map Prod.fst) := by
      intro a b hab k hkb hka
      exact hab k hka hkb
    exact insertBatch_comm m x y (hd.forall hsym hx hy hxy)

lemma exists_of_mem_zipWith {α β γ : Type} (f : α → β → γ)
    (l1 : List α) (l2 : List β) (c : γ)
    (hc : c ∈ List.zipWith f l1 l2) : ∃ a ∈ l1, ∃ b ∈ l2, c = f a b := by
  induction l1 generalizing l2 with
  | nil => simp at hc
  | cons a rest ih =>
    cases l2 with
    | nil => simp at hc
    | cons b l2t =>
      simp only [List.zipWith_cons_cons] at hc
      rcases List.mem_cons.mp hc with h | h
      · exact ⟨a, List.mem_cons_self a rest, b, List.mem_cons_self b l2t, h⟩
      · obtain ⟨a2, ha2, b2, hb2, he⟩ := ih l2t h
        exact ⟨a2, List.mem_cons_of_mem a ha2, b2,
          List.mem_cons_of_mem b hb2, he⟩

lemma evaluate_batch_keys (generate : String → Except String String)
    (entries : List (Nat × Entry)) (batch_id : Nat) :
    ∀ k, k ∈ (evaluate_batch generate entries batch_id).map Prod.fst →
      k ∈ entries.map Prod.fst := by
  intro k hk
  unfold evaluate_batch at hk
  by_cases he : entries.isEmpty
  · rw [if_pos he] at hk
    simp at hk
  · rw [if_neg he] at hk
    by_cases hd : (entries.filterMap fun p => extractQA p.2).isEmpty
    · rw [if_pos hd] at hk
      obtain ⟨p, hp, rfl⟩ := List.mem_map.mp hk
      obtain ⟨q, hq, rfl⟩ := List.mem_map.mp hp
      exact List.mem_map.mpr ⟨q, hq, rfl⟩
    · rw [if_neg hd] at hk
      cases hg : generate (create_evaluation_prompt
          (entries.filterMap fun p => extractQA p.2)) with
      | error e =>
        rw [hg] at hk
        obtain ⟨p, hp, rfl⟩ := List.mem_map.mp hk
        obtain ⟨q, hq, rfl⟩ := List.mem_map.mp hp
        exact List.mem_map.mpr ⟨q, (List.mem_filter.mp hq).1, rfl⟩
      | ok resp =>
        rw [hg] at hk
        obtain ⟨p, hp, rfl⟩ := List.mem_map.mp hk
        obtain ⟨q, hq, ev, hev, rfl⟩ := exists_of_mem_zipWith _ _ _ p hp
        exact List.mem_map.mpr ⟨q, (List.mem_filter.mp hq).1, rfl⟩

lemma mem_evalBatches (generate : String → Except String String)
    (chunks : List (List (Nat × Entry))) :
    ∀ (bid : Nat) (br : List (Nat × AIEval)),
      br ∈ evalBatches generate bid chunks →
      ∃ b ∈ chunks, ∃ id, br = evaluate_batch generate b id := by
  induction chunks with
  | nil =>
    intro bid br h
    simp [evalBatches] at h
  | cons c rest ih =>
    intro bid br h
    rcases List.mem_cons.mp h with h1 | h1
    · exact ⟨c, List.mem_cons_self c rest, bid, h1⟩
    · obtain ⟨b, hb, id, he⟩ := ih (bid + 1) br h1
      exact ⟨b, List.mem_cons_of_mem c hb, id, he⟩

lemma evalBatches_pairwise (generate : String → Except String String)
    (chunks : List (List (Nat × Entry))) :
    ∀ bid, (chunks.Pairwise fun a b =>
        ∀ k ∈ a.map Prod.fst, k ∉ b.map Prod.fst) →
      (evalBatches generate bid chunks).Pairwise
        fun a b => ∀ k ∈ a.map Prod.fst, k ∉ b.map Prod.fst := by
  induction chunks with
  | nil =>
    intro bid hd
    constructor
  | cons c rest ih =>
    intro bid hd
    cases hd with
    | cons h1 h2 =>
      refine List.Pairwise.cons ?_ (ih (bid + 1) h2)
      intro y hy k hk
      obtain ⟨b, hb, id, rfl⟩ := mem_evalBatches generate rest (bid + 1) y hy
      intro hk2
      exact h1 b hb k (evaluate_batch_keys generate c bid k hk)
        (evaluate_batch_keys generate b id k hk2)

lemma chunksOf_flatten_fuel {α : Type} (n : Nat) (hn : 0 < n) :
    ∀ (fuel : Nat) (l : List α), l.length ≤ fuel →
      (chunksOf n l).flatten = l := by
  intro fuel
  induction fuel with
  | zero =>
    intro l hl
    have hnil : l = [] := List.length_eq_zero.mp (Nat.le_zero.mp hl)
    subst hnil
    unfold chunksOf
    simp
  | succ f ih =>
    intro l hl
    unfold chunksOf
    split
    · next h =>
      rcases h with h1 | h2
      · have hnil : l = [] := List.isEmpty_iff.mp h1
        subst hnil
        rfl
      · omega
    · next h =>
      rcases not_or.mp h with ⟨h1, h2⟩
      have h3 : 0 < l.length := by
        cases l with
        | nil => exact absurd rfl h1
        | cons x xs => simp
      simp only [List.flatten_cons]
      rw [ih (l.drop n) (by simp only [List.length_drop]; omega)]
      exact List.take_append_drop n l

lemma chunksOf_flatten {α : Type} (n : Nat) (hn : 0 < n) (l : List α) :
    (chunksOf n l).flatten = l :=
  chunksOf_flatten_fuel n hn l.length l (Nat.le_refl _)

lemma chunksOf_pairwise (n : Nat) (hn : 0 < n) (l : List (Nat × Entry))
    (hnd : (l.map Prod.fst).Nodup) :
    (chunksOf n l).Pairwise fun a b =>
      ∀ k ∈ a.map Prod.fst, k ∉ b.map Prod.fst := by
  have h1 : ((chunksOf n l).map (List.map Prod.fst)).flatten.Nodup := by
    rw [← List.map_flatten, chunksOf_flatten n hn l]
    exact hnd
  have h2 := (List.nodup_flatten.mp h1).2
  rw [List.pairwise_map] at h2
  exact h2.imp fun hab k hk hk2 => hab hk hk2

/-- C7: the final evaluation mapping is independent of the order in which
batch results are merged: for distinct-index rule-passed records and a
positive batch size, merging the per-batch results in any completion
order yields the same mapping that apply_ai_evaluation produces, because
each original index belongs to exactly one batch.  The worker count has
no other effect on the mapping than the completion order quantified
here. -/
theorem apply_ai_evaluation_order_independent
    (generate : String → Except String String)
    (passed_entries : List (Nat × Entry)) (config : ProcessingConfig)
    (completion_order : List (List (Nat × AIEval)))
    (hbs : 0 < config.batch_size)
    (hnd : (passed_entries.map Prod.fst).Nodup)
    (hperm : completion_order.Perm
        (batchResultsOf generate passed_entries config)) :
    collectEvaluations completion_order
      = apply_ai_evaluation generate passed_entries config := by
  have hd := evalBatches_pairwise generate
    (chunksOf config.batch_size passed_entries) 0
    (chunksOf_pairwise config.batch_size hbs passed_entries hnd)
  have h1 : collectEvaluations (batchResultsOf generate passed_entries config)
      = collectEvaluations completion_order :=
    collectEvaluations_perm _ _ hperm.symm hd
  rw [← h1]
  unfold apply_ai_evaluation
  by_cases hpe : passed_entries.isEmpty
  · rw [if_pos hpe]
    have he : passed_entries = [] := List.isEmpty_iff.mp hpe
    subst he
    have hc : chunksOf config.batch_size ([] : List (Nat × Entry)) = [] := by
      unfold chunksOf
      simp
    simp [batchResultsOf, hc, evalBatches, collectEvaluations]
  · rw [if_neg hpe]

/-- Witness for C7: two one-record batches merged in reversed completion
order give the same mapping as submission order. -/
theorem apply_ai_evaluation_order_independent_witness :
    0 < (⟨7, 1, 6, none⟩ : ProcessingConfig).batch_size
    ∧ ([(0, eA), (1, eC9)].map Prod.fst).Nodup
    ∧ collectEvaluations
        (batchResultsOf failingGenerate [(0, eA), (1, eC9)]
          ⟨7, 1, 6, none⟩).reverse
      = apply_ai_evaluation failingGenerate [(0, eA), (1, eC9)]
          ⟨7, 1, 6, none⟩ :=
  ⟨by decide, by decide,
    apply_ai_evaluation_order_independent failingGenerate
      [(0, eA), (1, eC9)] ⟨7, 1, 6, none⟩ _ (by decide) (by decide)
      (List.reverse_perm _)⟩

/-- HotelDataQualityFilter.filter_data from filter.py, after the load
stage: rule filtering (whose error case is the ZeroDivisionError of the
pass-rate computation), the designed fatal stop when nothing passed
(Except.ok none models the logged 没有数据通过规则筛选 report-and-return),
then AI evaluation and merging. -/
def filter_data (data_entries : List Entry)
    (generate : String → Except String String)
    (config : ProcessingConfig) :
    Except String (Option (List FilterResult × List FilterResult)) :=
  match apply_rule_filtering data_entries with
  | Except.error e => Except.error e
  | Except.ok (passed_entries, rule_results) =>
    if passed_entries.isEmpty then Except.ok none
    else
      let ai_evaluations := apply_ai_evaluation generate passed_entries config
      Except.ok (some (merge_results data_entries rule_results
        ai_evaluations config))

/-- C10: on an empty record list the pipeline aborts with the
division-by-zero error raised while computing the rule-stage pass rate,
before the designed no-records-passed stop can be reported, and the
result does not depend on the judgment-service collaborator, which is
never invoked. -/
theorem filter_data_empty_input (generate : String → Except String String)
    (config : ProcessingConfig) :
    filter_data [] generate config
      = Except.error "ZeroDivisionError: division by zero"
    ∧ filter_data [] generate config ≠ Except.ok none
    ∧ ∀ generate2 : String → Except String String,
        filter_data [] generate config = filter_data [] generate2 config := by
  refine ⟨rfl, ?_, fun generate2 => rfl⟩
  intro h
  have h2 : (Except.error "ZeroDivisionError: division by zero"
      : Except String (Option (List FilterResult × List FilterResult)))
      = Except.ok none := h
  cases h2
